import Mathlib

/-!
Shallow embedding of the UFC Elo rating pipeline:
`classify_methods.py` (outcome classifier), `elo_calculator/elo_update.py`
(sequential Elo engine) and `compute_peak_elo.py` (peak extractor).

Free-text fields are modelled as `List Char`.  Python floats are modelled in
exact arithmetic: the engine works over `ℝ` (its win probability uses
`10 ** x`), the classifier multipliers and the peak extractor over `ℚ`.
-/

namespace UFCElo

/-- Character strings of the source's free-text fields. -/
abbrev Str := List Char

/-! ## Text normalization (`normalize_text` in `classify_methods.py`,
    `norm` in `elo_update.py` / `compute_peak_elo.py` — the same function:
    strip, then collapse each whitespace run to a single space). -/

/-- Whitespace as matched by the source's `\s` on the data it processes. -/
def wsChar (c : Char) : Bool :=
  c = ' ' || c = '\t' || c = '\n' || c = '\r'

/-- Python `str.strip()`: drop leading and trailing whitespace. -/
def stripList (l : Str) : Str :=
  ((l.dropWhile wsChar).reverse.dropWhile wsChar).reverse

/-- `SPACE_RE.sub(" ", s)`: replace every maximal whitespace run by one
    space (a run's characters are skipped until its last one, which is
    emitted as the single space). -/
def collapseWs : Str → Str
  | [] => []
  | [c] => if wsChar c then [' '] else [c]
  | c :: c2 :: t2 =>
    if wsChar c && wsChar c2 then collapseWs (c2 :: t2)
    else (if wsChar c then ' ' else c) :: collapseWs (c2 :: t2)

/-- `normalize_text(s)` = `SPACE_RE.sub(" ", s.strip())`. -/
def normalize_text (l : Str) : Str := collapseWs (stripList l)

/-- Python `str.lower()` (ASCII case fold is what the data exercises). -/
def lowerList (l : Str) : Str := l.map Char.toLower

/-- Python `s.strip().lower()` as used by `outcome_scores`. -/
def pyStripLower (l : Str) : Str := lowerList (stripList l)

/-! ## Substring containment (Python `needle in haystack`). -/

/-- Boolean list-prefix test. -/
def isPrefixList : Str → Str → Bool
  | [], _ => true
  | _ :: _, [] => false
  | a :: as_, b :: bs => a = b && isPrefixList as_ bs

/-- Python substring test `n in h` (true for the empty needle). -/
def containsSub (n : Str) : Str → Bool
  | [] => n.isEmpty
  | c :: t => isPrefixList n (c :: t) || containsSub n t

/-! ## Scorecard parsing (`SCORE_RE.findall`: every non-overlapping
    `(\d+)\s*[-–]\s*(\d+)` pair, leftmost first). -/

/-- Value of a (non-empty) digit run, as Python `int()`. -/
def digitsToNat (l : Str) : Nat :=
  l.foldl (fun n c => 10 * n + (c.toNat - 48)) 0

/-- Continuation of a `SCORE_RE` match after the first digit run and the
    whitespace following it: expects a dash (or en-dash), optional
    whitespace, then a second digit run; returns both numbers and the
    remaining input after the match. -/
def afterDash : Str → Nat → Option (Nat × Nat × Str)
  | [], _ => none
  | c :: r3, a =>
    if c = '-' ∨ c = '–' then
      let r4 := r3.dropWhile wsChar
      if (r4.takeWhile Char.isDigit).isEmpty then none
      else some (a, digitsToNat (r4.takeWhile Char.isDigit), r4.dropWhile Char.isDigit)
    else none

/-- Attempt a `SCORE_RE` match anchored at the start of `l`. -/
def tryPair (l : Str) : Option (Nat × Nat × Str) :=
  let d1 := l.takeWhile Char.isDigit
  if d1.isEmpty then none
  else afterDash ((l.dropWhile Char.isDigit).dropWhile wsChar) (digitsToNat d1)

theorem afterDash_length {m : Str} {a x y : Nat} {rest : Str}
    (h : afterDash m a = some (x, y, rest)) : rest.length < m.length := by
  cases m with
  | nil => simp [afterDash] at h
  | cons c r3 =>
    simp only [afterDash] at h
    split at h
    · split at h
      · exact absurd h (by simp)
      · have hr4 := (List.dropWhile_sublist (p := wsChar) (l := r3)).length_le
        have hr5 := (List.dropWhile_sublist (p := Char.isDigit)
          (l := r3.dropWhile wsChar)).length_le
        simp only [Option.some.injEq, Prod.mk.injEq] at h
        obtain ⟨-, -, hrest⟩ := h
        subst hrest
        simp only [List.length_cons]
        omega
    · exact absurd h (by simp)

theorem tryPair_length {l : Str} {x y : Nat} {rest : Str}
    (h : tryPair l = some (x, y, rest)) : rest.length < l.length := by
  simp only [tryPair] at h
  split at h
  · exact absurd h (by simp)
  · have h1 := afterDash_length h
    have h2 := (List.dropWhile_sublist (p := wsChar)
      (l := l.dropWhile Char.isDigit)).length_le
    have h3 := (List.dropWhile_sublist (p := Char.isDigit) (l := l)).length_le
    omega

/-- Fuelled scanning loop of `SCORE_RE.findall`: collect non-overlapping
    number pairs left to right, advancing one character when no match
    starts at the current position.  Each step strictly shortens the
    remaining input (`tryPair_length`), so fuel equal to the input length
    is never exhausted. -/
def scanPairsF : Nat → Str → List (Nat × Nat)
  | 0, _ => []
  | _, [] => []
  | fuel + 1, c :: t =>
    match tryPair (c :: t) with
    | some (a, b, rest) => (a, b) :: scanPairsF fuel rest
    | none => scanPairsF fuel t

/-- `SCORE_RE.findall` over the whole input. -/
def scanPairs (l : Str) : List (Nat × Nat) := scanPairsF l.length l

/-- `parse_scorecard_margins`: commas become spaces, then the absolute
    margin `abs(int(a) - int(b))` of every `A - B` pair found.
    (`int()` cannot fail on a `\d+` capture, so the source's
    `try/except` around the append never fires.) -/
def parse_scorecard_margins (details_text : Str) : List Nat :=
  if (stripList details_text).isEmpty then []
  else
    (scanPairs (details_text.map fun ch => if ch = ',' then ' ' else ch)).map
      fun p => ((p.1 : ℤ) - (p.2 : ℤ)).natAbs

/-! ## Classifier (`classify_methods.py`). -/

/-- `FINISH_TOKENS`. -/
def FINISH_TOKENS : List Str :=
  [("ko".toList), ("tko".toList), ("submission".toList), ("sub".toList),
   ("dq".toList), ("disqualification".toList), ("doctor stoppage".toList),
   ("retirement".toList)]

/-- `method_is_finish`: some finish token occurs in the lower-cased
    normalized method text. -/
def method_is_finish (method : Str) : Bool :=
  FINISH_TOKENS.any fun tok => containsSub tok (lowerList (normalize_text method))

/-- `method_is_decision`. -/
def method_is_decision (method : Str) : Bool :=
  containsSub ("decision".toList) (lowerList (normalize_text method))

/-- `method_decision_type`. -/
def method_decision_type (method : Str) : Str :=
  let m := lowerList (normalize_text method)
  if containsSub ("split".toList) m then "split".toList
  else if containsSub ("majority".toList) m then "majority".toList
  else if containsSub ("unanimous".toList) m then "unanimous".toList
  else "decision".toList

/-- Input row of `classify_row`: the fields the classification reads.
    (`rounds_scheduled` / `TIME FORMAT` are read by the source but never
    used in the returned classification, so they are omitted here.) -/
structure ClassRow where
  winner_label : Str
  METHOD : Str
  DETAILS : Str

/-- Return tuple of `classify_row`:
    `(method_class, method_multiplier, decision_basis, judge_margins_str)`. -/
structure ClassResult where
  cls : Str
  mult : ℚ
  basis : Str
  margins_str : Str
deriving DecidableEq

/-- `",".join(str(x) for x in margins) if margins else ""`. -/
def marginsToStr (ms : List Nat) : Str :=
  if ms.isEmpty then []
  else List.intercalate (",".toList) (ms.map fun n => Nat.toDigits 10 n)

/-- `classify_row(row, m_finish, m_dom, m_dec)`. -/
def classify_row (row : ClassRow) (m_finish m_dom m_dec : ℚ) : ClassResult :=
  let outcome := normalize_text row.winner_label
  let method := normalize_text row.METHOD
  let details := normalize_text row.DETAILS
  if lowerList outcome = ("draw".toList) then
    ⟨("draw".toList), m_dec, ("outcome_draw".toList), []⟩
  else if lowerList outcome = ("nc".toList) then
    ⟨("nc".toList), m_dec, ("outcome_nc".toList), []⟩
  else if method_is_finish method && !(method_is_decision method) then
    ⟨("finish".toList), m_finish, ("method_finish".toList), []⟩
  else if method_is_decision method then
    let d_type := method_decision_type method
    if d_type = ("split".toList) ∨ d_type = ("majority".toList) then
      ⟨("decision_normal".toList), m_dec, ("method_".toList) ++ d_type, []⟩
    else
      let margins := parse_scorecard_margins details
      let margins_str := marginsToStr margins
      if ¬ margins.isEmpty then
        if margins.any fun m => 3 ≤ m then
          ⟨("decision_dominant".toList), m_dom, ("details_any_margin_ge_3".toList), margins_str⟩
        else if 2 ≤ (margins.filter fun m => 2 ≤ m).length then
          ⟨("decision_dominant".toList), m_dom, ("details_two_cards_ge_2".toList), margins_str⟩
        else
          ⟨("decision_normal".toList), m_dec, ("details_small_margins".toList), margins_str⟩
      else if method_decision_type method = ("unanimous".toList) then
        ⟨("decision_dominant".toList), m_dom, ("method_unanimous_no_details".toList), []⟩
      else
        ⟨("decision_normal".toList), m_dec, ("method_generic_decision".toList), []⟩
  else if FINISH_TOKENS.any fun tok => containsSub tok (lowerList method) then
    ⟨("finish".toList), m_finish, ("method_finish_fallback".toList), []⟩
  else
    ⟨("other".toList), m_dec, ("unknown_method".toList), []⟩

/-! ## Rating engine (`elo_calculator/elo_update.py`).

The engine's floats are modelled over `ℝ` (its win probability uses a real
power `10 ** x`), so the engine definitions are noncomputable; all concrete
evaluations below go through `simp` / `norm_num`. -/

/-- Configuration of `run_elo` (`EloConfig` dataclass). -/
structure EloConfig where
  base_rating : ℝ := 1500
  K : ℝ := 24
  scale : ℝ := 350

/-- `logistic_prob(ra, rb, scale) = 1.0 / (1.0 + 10 ** ((rb - ra) / scale))`. -/
noncomputable def logistic_prob (ra rb scale : ℝ) : ℝ :=
  1 / (1 + (10 : ℝ) ^ ((rb - ra) / scale))

/-- `key_from_name(name) = norm(name).lower()` (`norm` is the same
    strip-and-collapse normalization as `normalize_text`). -/
def key_from_name (name : Str) : Str := lowerList (normalize_text name)

/-- Input row of the engine loop: the fields `run_elo` reads per bout.
    `method_multiplier` is a number here, so the source's
    `float(...)` coercion with fallback 1.0 and the `math.isfinite`
    guard are identities and are not reproduced. -/
structure Bout where
  DATE : Option Nat
  EVENT : Str
  BOUT : Str
  fighter_a_name : Str
  fighter_a_url : Str
  fighter_b_name : Str
  fighter_b_url : Str
  winner_label : Str
  method_class : Str
  method_multiplier : ℝ

/-- `choose_fighter_id(row, side)`: canonical id (url if present, else the
    lower-cased normalized name) and the normalized display name. -/
def choose_fighter_id (b : Bout) (side_a : Bool) : Str × Str :=
  let name := normalize_text (if side_a then b.fighter_a_name else b.fighter_b_name)
  let url := normalize_text (if side_a then b.fighter_a_url else b.fighter_b_url)
  (if url.isEmpty then key_from_name name else url, name)

/-- `outcome_scores(winner_label)`: actual scores for both sides, `none`
    for no-contest / unknown / empty / unrecognized labels. -/
noncomputable def outcome_scores (winner_label : Str) : Option (ℝ × ℝ) :=
  let w := pyStripLower winner_label
  if w = ("a".toList) then some (1, 0)
  else if w = ("b".toList) then some (0, 1)
  else if w = ("draw".toList) then some (0.5, 0.5)
  else none

/-- One audit record of the history ledger appended per processed bout. -/
structure HistRow where
  DATE : Option Nat
  EVENT : Str
  BOUT : Str
  fighter_a_id : Str
  fighter_b_id : Str
  fighter_a_name : Str
  fighter_b_name : Str
  pre_rating_a : ℝ
  pre_rating_b : ℝ
  p_A_win : ℝ
  winner_label : Str
  method_class : Str
  method_multiplier : ℝ
  K_eff : ℝ
  post_rating_a : ℝ
  post_rating_b : ℝ

/-- Mutable state of one `run_elo` run: the rating table (an
    insertion-ordered association list, mirroring the `defaultdict`
    iteration order used for the final snapshot), the bookkeeping
    dictionaries and the append-only history. -/
structure EloState where
  ratings : List (Str × ℝ)
  names : Str → Option Str
  fights_ct : Str → Nat
  wins_ct : Str → Nat
  losses_ct : Str → Nat
  draws_ct : Str → Nat
  first_date : Str → Option (Option Nat)
  last_date : Str → Option (Option Nat)
  history : List HistRow

/-- Empty state at the start of a run. -/
def initState : EloState :=
  ⟨[], fun _ => none, fun _ => 0, fun _ => 0, fun _ => 0, fun _ => 0,
   fun _ => none, fun _ => none, []⟩

/-- Pointwise update of a dictionary modelled as a function. -/
def updFun {α : Type} (f : Str → α) (k : Str) (v : α) : Str → α :=
  fun x => if x = k then v else f x

/-- `ctr[fid] += 1` on a `defaultdict(int)`. -/
def updCount (f : Str → Nat) (k : Str) : Str → Nat :=
  fun x => if x = k then f x + 1 else f x

/-- First read of `ratings[fid]` on a `defaultdict`: inserts the base
    rating at the end of the iteration order if the key is new. -/
def touchR (base : ℝ) (l : List (Str × ℝ)) (k : Str) : List (Str × ℝ) :=
  if l.any fun p => p.1 = k then l else l ++ [(k, base)]

/-- Current rating of `k` (base value if absent). -/
def getR (base : ℝ) (l : List (Str × ℝ)) (k : Str) : ℝ :=
  ((l.find? fun p => p.1 = k).map Prod.snd).getD base

/-- `ratings[k] = v` for a key already present (keeps insertion order). -/
def setR (l : List (Str × ℝ)) (k : Str) (v : ℝ) : List (Str × ℝ) :=
  l.map fun p => if p.1 = k then (k, v) else p

/-- New value of `first_date[fid]` after one bout dated `d`:
    assign `d` if the key is new, or if `d` is a real date that is
    earlier than (or replaces a missing) stored date. -/
def firstVal (cur : Option (Option Nat)) (d : Option Nat) : Option Nat :=
  match cur with
  | none => d
  | some c =>
    match d, c with
    | some dv, none => some dv
    | some dv, some cv => if dv < cv then some dv else some cv
    | none, _ => c

/-- New value of `last_date[fid]`, symmetric to `firstVal` with `>`. -/
def lastVal (cur : Option (Option Nat)) (d : Option Nat) : Option Nat :=
  match cur with
  | none => d
  | some c =>
    match d, c with
    | some dv, none => some dv
    | some dv, some cv => if cv < dv then some dv else some cv
    | none, _ => c

/-- Body of the `run_elo` loop for one bout: skip unresolved outcomes,
    otherwise update ratings, counters, dates and append an audit row. -/
noncomputable def stepBout (cfg : EloConfig) (st : EloState) (b : Bout) : EloState :=
  match outcome_scores b.winner_label with
  | none => st
  | some sc =>
    let s_a := sc.1
    let s_b := sc.2
    let fid_a := (choose_fighter_id b true).1
    let name_a := (choose_fighter_id b true).2
    let fid_b := (choose_fighter_id b false).1
    let name_b := (choose_fighter_id b false).2
    let names1 := updFun st.names fid_a (some (if name_a.isEmpty then fid_a else name_a))
    let names2 := updFun names1 fid_b (some (if name_b.isEmpty then fid_b else name_b))
    let rl := touchR cfg.base_rating (touchR cfg.base_rating st.ratings fid_a) fid_b
    let ra := getR cfg.base_rating rl fid_a
    let rb := getR cfg.base_rating rl fid_b
    let m := b.method_multiplier
    let p_a := logistic_prob ra rb cfg.scale
    let k_eff := cfg.K * m
    let ra_new := ra + k_eff * (s_a - p_a)
    let rb_new := rb + k_eff * (s_b - (1 - p_a))
    let rl2 := setR (setR rl fid_a ra_new) fid_b rb_new
    let fights1 := updCount (updCount st.fights_ct fid_a) fid_b
    let wld :=
      if s_a = 1 then (updCount st.wins_ct fid_a, updCount st.losses_ct fid_b, st.draws_ct)
      else if s_b = 1 then (updCount st.wins_ct fid_b, updCount st.losses_ct fid_a, st.draws_ct)
      else (st.wins_ct, st.losses_ct, updCount (updCount st.draws_ct fid_a) fid_b)
    let d := b.DATE
    let fd1 := updFun st.first_date fid_a (some (firstVal (st.first_date fid_a) d))
    let fd2 := updFun fd1 fid_b (some (firstVal (fd1 fid_b) d))
    let ld1 := updFun st.last_date fid_a (some (lastVal (st.last_date fid_a) d))
    let ld2 := updFun ld1 fid_b (some (lastVal (ld1 fid_b) d))
    let row : HistRow :=
      { DATE := b.DATE
        EVENT := normalize_text b.EVENT
        BOUT := normalize_text b.BOUT
        fighter_a_id := fid_a
        fighter_b_id := fid_b
        fighter_a_name := (names2 fid_a).getD fid_a
        fighter_b_name := (names2 fid_b).getD fid_b
        pre_rating_a := ra
        pre_rating_b := rb
        p_A_win := p_a
        winner_label := pyStripLower b.winner_label
        method_class := normalize_text b.method_class
        method_multiplier := m
        K_eff := k_eff
        post_rating_a := ra_new
        post_rating_b := rb_new }
    { ratings := rl2
      names := names2
      fights_ct := fights1
      wins_ct := wld.1
      losses_ct := wld.2.1
      draws_ct := wld.2.2
      first_date := fd2
      last_date := ld2
      history := st.history ++ [row] }

/-- The `run_elo` processing loop: a left fold of `stepBout` over the bout
    sequence (the source iterates the rows already sorted
    chronologically). -/
noncomputable def run_elo (cfg : EloConfig) (bouts : List Bout) : EloState :=
  bouts.foldl (stepBout cfg) initState

/-- One row of the end-of-run ratings snapshot. -/
structure SnapRow where
  fighter_id : Str
  fighter_name : Str
  rating : ℝ
  fights : Nat
  wins : Nat
  losses : Nat
  draws : Nat
  first_date : Option (Option Nat)
  last_date : Option (Option Nat)

/-- Snapshot rows in `ratings.items()` insertion order, before sorting. -/
noncomputable def snapRows (st : EloState) : List SnapRow :=
  st.ratings.map fun p =>
    { fighter_id := p.1
      fighter_name := (st.names p.1).getD p.1
      rating := p.2
      fights := st.fights_ct p.1
      wins := st.wins_ct p.1
      losses := st.losses_ct p.1
      draws := st.draws_ct p.1
      first_date := st.first_date p.1
      last_date := st.last_date p.1 }

/-- Snapshot sort key: descending rating. -/
def ratingDescRel (x y : SnapRow) : Prop := y.rating ≤ x.rating

noncomputable instance : DecidableRel ratingDescRel :=
  fun x y => Real.decidableLE y.rating x.rating

instance : IsTotal SnapRow ratingDescRel :=
  ⟨fun a b => le_total b.rating a.rating⟩

instance : IsTrans SnapRow ratingDescRel :=
  ⟨fun _ _ _ h1 h2 => le_trans h2 h1⟩

/-- End-of-run snapshot: `rat_df.sort_values("rating", ascending=False)`.
    The source sorts on the rating column only (no further key), so the
    sort is modelled as a stable sort by descending rating. -/
noncomputable def snapshot (st : EloState) : List SnapRow :=
  List.insertionSort ratingDescRel (snapRows st)

/-! ## Peak extractor (`compute_peak_elo.py`).

It consumes the history ledger from a CSV file; its numeric rating columns
are modelled over `ℚ` so that this component stays executable. -/

/-- Ledger row as read by `compute_peak_elo.py` (the columns it uses). -/
structure HistCsv where
  DATE : Option Nat
  EVENT : Str
  BOUT : Str
  fighter_a_id : Str
  fighter_a_name : Str
  pre_rating_a : ℚ
  post_rating_a : ℚ
  fighter_b_id : Str
  fighter_b_name : Str
  pre_rating_b : ℚ
  post_rating_b : ℚ
deriving DecidableEq

/-- One row per fighter per fight (output schema of
    `build_long_from_history`). -/
structure LongRow where
  DATE : Option Nat
  EVENT : Str
  BOUT : Str
  fighter_id : Str
  fighter_name : Str
  pre_rating : ℚ
  post_rating : ℚ
deriving DecidableEq

/-- The `a`-side projection of a ledger row, with ids and names
    normalized and the empty name replaced by the fighter id. -/
def longRowA (h : HistCsv) : LongRow :=
  let fid := normalize_text h.fighter_a_id
  let nm := normalize_text h.fighter_a_name
  ⟨h.DATE, h.EVENT, h.BOUT, fid, if nm.isEmpty then fid else nm,
   h.pre_rating_a, h.post_rating_a⟩

/-- The `b`-side projection of a ledger row. -/
def longRowB (h : HistCsv) : LongRow :=
  let fid := normalize_text h.fighter_b_id
  let nm := normalize_text h.fighter_b_name
  ⟨h.DATE, h.EVENT, h.BOUT, fid, if nm.isEmpty then fid else nm,
   h.pre_rating_b, h.post_rating_b⟩

/-- `build_long_from_history`: the `a`-side block followed by the
    `b`-side block (`pd.concat([a, b])`). -/
def build_long_from_history (hist : List HistCsv) : List LongRow :=
  (hist.map longRowA) ++ (hist.map longRowB)

/-- Sort position of a date: missing dates (`NaT`) sort last
    (`na_position="last"`). -/
def dateKey : Option Nat → WithTop Nat
  | none => ⊤
  | some n => (n : WithTop Nat)

/-- Key of the `compute_peak` stable sort:
    fighter id ascending, then post rating descending, then date
    ascending. -/
def peakKey (x : LongRow) : Lex (Str × Lex (ℚᵒᵈ × WithTop Nat)) :=
  toLex (x.fighter_id, toLex (OrderDual.toDual x.post_rating, dateKey x.DATE))

/-- Comparison relation of the `compute_peak` stable sort. -/
def peakRel (x y : LongRow) : Prop := peakKey x ≤ peakKey y

instance : DecidableRel peakRel :=
  fun x y => inferInstanceAs (Decidable (peakKey x ≤ peakKey y))

instance : IsTotal LongRow peakRel :=
  ⟨fun a b => le_total (peakKey a) (peakKey b)⟩

instance : IsTrans LongRow peakRel :=
  ⟨fun _ _ _ h1 h2 => le_trans h1 h2⟩

/-- `drop_duplicates(subset=["fighter_id"], keep="first")`: keep the first
    row of every fighter id, in order. -/
def dropDupFid (seen : List Str) : List LongRow → List LongRow
  | [] => []
  | e :: t =>
    if e.fighter_id ∈ seen then dropDupFid seen t
    else e :: dropDupFid (e.fighter_id :: seen) t

/-- Output row of `compute_peak`. -/
structure PeakRow where
  fighter_id : Str
  fighter_name : Str
  peak_rating : ℚ
  peak_date : Option Nat
  peak_event : Str
  peak_bout : Str
deriving DecidableEq

/-- Column selection and renaming applied to the selected ledger row. -/
def toPeakRow (x : LongRow) : PeakRow :=
  ⟨x.fighter_id, x.fighter_name, x.post_rating, x.DATE, x.EVENT, x.BOUT⟩

/-- Final ordering of the peak table: peak rating descending. -/
def peakDescRel (x y : PeakRow) : Prop := y.peak_rating ≤ x.peak_rating

instance : DecidableRel peakDescRel :=
  fun x y => inferInstanceAs (Decidable (y.peak_rating ≤ x.peak_rating))

instance : IsTotal PeakRow peakDescRel :=
  ⟨fun a b => le_total b.peak_rating a.peak_rating⟩

instance : IsTrans PeakRow peakDescRel :=
  ⟨fun _ _ _ h1 h2 => le_trans h2 h1⟩

/-- `compute_peak`: stable sort by (fighter id, rating descending, date),
    first row per fighter id, project columns, then order the result by
    peak rating descending. -/
def compute_peak (long : List LongRow) : List PeakRow :=
  List.insertionSort peakDescRel
    ((dropDupFid [] (List.insertionSort peakRel long)).map toPeakRow)

/-! ## Concrete inputs used to instantiate the claims below. -/

/-- Default engine configuration (base 1500, K = 24, scale = 350). -/
def defaultCfg : EloConfig := ⟨1500, 24, 350⟩

/-- Unanimous decision with scorecards 47-48, 49-46, 47-48 (margins 1,3,1). -/
def rowUD : ClassRow :=
  ⟨("A".toList), ("Decision - Unanimous".toList), ("47 - 48,49 - 46,47 - 48".toList)⟩

/-- Split decision with three wide 50-44 scorecards. -/
def rowSplit : ClassRow :=
  ⟨("A".toList), ("Decision - Split".toList), ("50 - 44,50 - 44,50 - 44".toList)⟩

/-- Single finish bout between two fresh competitors, multiplier 1.20. -/
def boutC1 : Bout :=
  ⟨some 0, ("UFC 1".toList), ("Alpha vs Beta".toList),
   ("Alpha".toList), [], ("Beta".toList), [], ("A".toList),
   ("finish".toList), 1.2⟩

/-- Draw between AA and BB, neutral multiplier. -/
def boutD1 : Bout :=
  ⟨some 1, ("E1".toList), ("AA vs BB 1".toList),
   ("AA".toList), [], ("BB".toList), [], ("Draw".toList),
   ("decision_normal".toList), 1⟩

/-- Second, distinct draw between the same two competitors. -/
def boutD2 : Bout :=
  ⟨some 2, ("E2".toList), ("AA vs BB 2".toList),
   ("AA".toList), [], ("BB".toList), [], ("draw".toList),
   ("decision_normal".toList), 1.2⟩

/-- AA beats BB (a-side win, neutral multiplier). -/
def boutW1 : Bout :=
  ⟨some 1, ("E1".toList), ("AA vs BB".toList),
   ("AA".toList), [], ("BB".toList), [], ("A".toList),
   ("decision_normal".toList), 1⟩

/-- BB beats AA (the return bout, a-side is BB). -/
def boutW2 : Bout :=
  ⟨some 2, ("E2".toList), ("BB vs AA".toList),
   ("BB".toList), [], ("AA".toList), [], ("A".toList),
   ("decision_normal".toList), 1⟩

/-- ZZ beats AA. -/
def boutS1 : Bout :=
  ⟨some 1, ("E1".toList), ("ZZ vs AA".toList),
   ("ZZ".toList), [], ("AA".toList), [], ("A".toList),
   ("decision_normal".toList), 1⟩

/-- BB beats CC. -/
def boutS2 : Bout :=
  ⟨some 2, ("E2".toList), ("BB vs CC".toList),
   ("BB".toList), [], ("CC".toList), [], ("A".toList),
   ("decision_normal".toList), 1⟩

/-- No-contest bout. -/
def boutNC : Bout :=
  ⟨some 3, ("E3".toList), ("X vs Y".toList),
   ("X".toList), [], ("Y".toList), [], ("NC".toList),
   ("nc".toList), 1⟩

/-- Ledger row: fighter x reaches 1510 on date 5. -/
def histW1 : HistCsv :=
  ⟨some 5, ("E1".toList), ("B1".toList),
   ("x".toList), ("X Name".toList), 1500, 1510,
   ("y".toList), ("Y Name".toList), 1500, 1490⟩

/-- Ledger row: fighter x already reached 1510 on the earlier date 3. -/
def histW2 : HistCsv :=
  ⟨some 3, ("E2".toList), ("B2".toList),
   ("x".toList), ("X Name".toList), 1498, 1510,
   ("z".toList), [], 1500, 1488⟩

/-! ## Properties of the text normalization. -/

/-- No leading whitespace. -/
def noLead (l : Str) : Prop := ∀ c, l.head? = some c → wsChar c = false

/-- No trailing whitespace. -/
def noTrail (l : Str) : Prop := ∀ c, l.getLast? = some c → wsChar c = false

theorem dropWhile_eq_self_of_head {p : Char → Bool} {l : Str}
    (h : ∀ c, l.head? = some c → p c = false) : l.dropWhile p = l := by
  cases l with
  | nil => rfl
  | cons a t => simp [List.dropWhile_cons, h a rfl]

theorem head_dropWhile_false {p : Char → Bool} (l : Str) :
    ∀ c, (l.dropWhile p).head? = some c → p c = false := by
  induction l with
  | nil => intro c h; simp at h
  | cons a t ih =>
    intro c h
    by_cases hp : p a
    · rw [List.dropWhile_cons_of_pos hp] at h
      exact ih c h
    · rw [List.dropWhile_cons_of_neg hp] at h
      simp only [List.head?_cons, Option.some.injEq] at h
      subst h
      simpa using hp

theorem stripList_eq_self {l : Str} (h1 : noLead l) (h2 : noTrail l) :
    stripList l = l := by
  have hrev : ∀ c, l.reverse.head? = some c → wsChar c = false := by
    intro c hc
    rw [List.head?_reverse] at hc
    exact h2 c hc
  unfold stripList
  rw [dropWhile_eq_self_of_head h1, dropWhile_eq_self_of_head hrev,
      List.reverse_reverse]

theorem noTrail_stripList (l : Str) : noTrail (stripList l) := by
  intro c hc
  unfold stripList at hc
  rw [List.getLast?_reverse] at hc
  exact head_dropWhile_false _ c hc

theorem noLead_stripList (l : Str) : noLead (stripList l) := by
  intro c hc
  have hpre : stripList l <+: l.dropWhile wsChar := by
    unfold stripList
    have h0 := List.reverse_prefix.mpr
      (List.dropWhile_suffix (l := (l.dropWhile wsChar).reverse) wsChar)
    rwa [List.reverse_reverse] at h0
  obtain ⟨t, ht⟩ := hpre
  rcases hs : stripList l with _ | ⟨a, r⟩
  · rw [hs] at hc; simp at hc
  · rw [hs] at ht hc
    simp only [List.head?_cons, Option.some.injEq] at hc
    have hhd : (l.dropWhile wsChar).head? = some a := by
      rw [← ht]; rfl
    rw [← hc]
    exact head_dropWhile_false l a hhd

theorem getLast?_cons_of_ne_nil {c : Char} {t : Str} (h : t ≠ []) :
    (c :: t).getLast? = t.getLast? := by
  cases t with
  | nil => exact absurd rfl h
  | cons a r => exact List.getLast?_cons_cons

theorem noTrail_of_cons {c : Char} {t : Str} (h : noTrail (c :: t)) (ht : t ≠ []) :
    noTrail t := by
  intro x hx
  exact h x (by rw [getLast?_cons_of_ne_nil ht]; exact hx)

theorem collapseWs_ne_nil {l : Str} (h : l ≠ []) : collapseWs l ≠ [] := by
  induction l using collapseWs.induct with
  | case1 => exact absurd rfl h
  | case2 c hws => rw [collapseWs, if_pos hws]; simp
  | case3 c hws => rw [collapseWs, if_neg hws]; simp
  | case4 c c2 t2 hws ih => rw [collapseWs, if_pos hws]; exact ih (by simp)
  | case5 c c2 t2 hws ih => rw [collapseWs, if_neg hws]; simp

theorem head?_collapseWs {c : Char} (t : Str) (h : wsChar c = false) :
    (collapseWs (c :: t)).head? = some c := by
  cases t with
  | nil => rw [collapseWs, if_neg (by simp [h])]; rfl
  | cons c2 t2 =>
    rw [collapseWs, if_neg (by simp [h])]
    simp [h]

theorem noLead_collapseWs {l : Str} (h : noLead l) : noLead (collapseWs l) := by
  cases l with
  | nil => intro x hx; simp [collapseWs] at hx
  | cons c t =>
    have hc := h c rfl
    intro x hx
    rw [head?_collapseWs t hc] at hx
    simp only [Option.some.injEq] at hx
    rwa [← hx]

theorem noTrail_collapseWs {l : Str} (h : noTrail l) : noTrail (collapseWs l) := by
  induction l using collapseWs.induct with
  | case1 => intro x hx; simp [collapseWs] at hx
  | case2 c hws =>
    have hc : wsChar c = false := h c (by simp)
    rw [hc] at hws
    exact absurd hws (by decide)
  | case3 c hws =>
    have hc : wsChar c = false := h c (by simp)
    rw [collapseWs, if_neg hws]
    intro x hx
    simp only [List.getLast?_singleton, Option.some.injEq] at hx
    rwa [← hx]
  | case4 c c2 t2 hws ih =>
    have h2 : noTrail (c2 :: t2) := noTrail_of_cons h (by simp)
    rw [collapseWs, if_pos hws]
    exact ih h2
  | case5 c c2 t2 hws ih =>
    have h2 : noTrail (c2 :: t2) := noTrail_of_cons h (by simp)
    have hne : collapseWs (c2 :: t2) ≠ [] := collapseWs_ne_nil (by simp)
    rw [collapseWs, if_neg hws]
    intro x hx
    rw [getLast?_cons_of_ne_nil hne] at hx
    exact ih h2 x hx

theorem collapseWs_collapseWs (l : Str) : collapseWs (collapseWs l) = collapseWs l := by
  induction l using collapseWs.induct with
  | case1 => rfl
  | case2 c hws => rw [collapseWs, if_pos hws]; decide
  | case3 c hws =>
    have hc : wsChar c = false := by simpa using hws
    rw [collapseWs, if_neg hws, collapseWs, if_neg hws]
  | case4 c c2 t2 hws ih =>
    have e1 : collapseWs (c :: c2 :: t2) = collapseWs (c2 :: t2) := by
      rw [collapseWs, if_pos hws]
    rw [e1]
    exact ih
  | case5 c c2 t2 hws ih =>
    have e1 : collapseWs (c :: c2 :: t2) =
        (if wsChar c then ' ' else c) :: collapseWs (c2 :: t2) := by
      rw [collapseWs, if_neg hws]
    rw [e1]
    have hRne : collapseWs (c2 :: t2) ≠ [] := collapseWs_ne_nil (by simp)
    rcases hR : collapseWs (c2 :: t2) with _ | ⟨r1, R2⟩
    · exact absurd hR hRne
    · have hyr : (wsChar (if wsChar c then ' ' else c) && wsChar r1) = false := by
        by_cases hc : wsChar c = true
        · have hc2 : wsChar c2 = false := by
            rcases hb : wsChar c2 with _ | _
            · rfl
            · exact absurd (by rw [hc, hb]; rfl) hws
          have hr1 : r1 = c2 := by
            have hh := head?_collapseWs (c := c2) t2 hc2
            rw [hR] at hh
            simpa using hh
          rw [if_pos hc, hr1, hc2]
          simp
        · have hcf : wsChar c = false := by simpa using hc
          rw [if_neg hc, hcf]
          simp
      have hy : (if wsChar (if wsChar c then ' ' else c) then ' '
          else (if wsChar c then ' ' else c)) = (if wsChar c then ' ' else c) := by
        by_cases hc : wsChar c = true
        · rw [if_pos hc]
          simp [wsChar]
        · rw [if_neg hc, if_neg hc]
      rw [collapseWs, if_neg (by simp [hyr]), hy]
      have hfix : collapseWs (r1 :: R2) = r1 :: R2 := by
        rw [← hR]
        exact ih
      rw [hfix]

theorem normalize_text_idem (l : Str) :
    normalize_text (normalize_text l) = normalize_text l := by
  unfold normalize_text
  rw [stripList_eq_self (noLead_collapseWs (noLead_stripList l))
        (noTrail_collapseWs (noTrail_stripList l)),
      collapseWs_collapseWs]

/-! ## Classifier claims. -/

/-- C9: `classify_row` never returns basis `method_finish_fallback`.
Whenever the fallback finish test would fire (a finish token occurs in
the lower-cased method text and the decision branch was not taken), the
earlier finish rule has already matched on the same normalized text, so
the fallback branch is unreachable. -/
theorem claim_C9_fallback_unreachable (row : ClassRow) (m_finish m_dom m_dec : ℚ) :
    (classify_row row m_finish m_dom m_dec).basis ≠ ("method_finish_fallback".toList) := by
  simp only [classify_row]
  by_cases h1 : lowerList (normalize_text row.winner_label) = ("draw".toList)
  · rw [if_pos h1]
    exact show ("outcome_draw".toList) ≠ ("method_finish_fallback".toList) by decide
  rw [if_neg h1]
  by_cases h2 : lowerList (normalize_text row.winner_label) = ("nc".toList)
  · rw [if_pos h2]
    exact show ("outcome_nc".toList) ≠ ("method_finish_fallback".toList) by decide
  rw [if_neg h2]
  by_cases h3 : (method_is_finish (normalize_text row.METHOD) &&
      !method_is_decision (normalize_text row.METHOD)) = true
  · rw [if_pos h3]
    exact show ("method_finish".toList) ≠ ("method_finish_fallback".toList) by decide
  rw [if_neg h3]
  by_cases h4 : method_is_decision (normalize_text row.METHOD) = true
  · rw [if_pos h4]
    by_cases h5 : method_decision_type (normalize_text row.METHOD) = ("split".toList) ∨
        method_decision_type (normalize_text row.METHOD) = ("majority".toList)
    · rw [if_pos h5]
      rcases h5 with h5 | h5 <;> rw [h5]
      · exact show ("method_".toList ++ ("split".toList)) ≠
          ("method_finish_fallback".toList) by decide
      · exact show ("method_".toList ++ ("majority".toList)) ≠
          ("method_finish_fallback".toList) by decide
    rw [if_neg h5]
    by_cases h6 : ¬((parse_scorecard_margins (normalize_text row.DETAILS)).isEmpty = true)
    · rw [if_pos h6]
      by_cases h7 : ((parse_scorecard_margins (normalize_text row.DETAILS)).any
          fun m => 3 ≤ m) = true
      · rw [if_pos h7]
        exact show ("details_any_margin_ge_3".toList) ≠
          ("method_finish_fallback".toList) by decide
      rw [if_neg h7]
      by_cases h8 : 2 ≤ ((parse_scorecard_margins (normalize_text row.DETAILS)).filter
          fun m => 2 ≤ m).length
      · rw [if_pos h8]
        exact show ("details_two_cards_ge_2".toList) ≠
          ("method_finish_fallback".toList) by decide
      · rw [if_neg h8]
        exact show ("details_small_margins".toList) ≠
          ("method_finish_fallback".toList) by decide
    · rw [if_neg h6]
      by_cases h9 : method_decision_type (normalize_text row.METHOD) = ("unanimous".toList)
      · rw [if_pos h9]
        exact show ("method_unanimous_no_details".toList) ≠
          ("method_finish_fallback".toList) by decide
      · rw [if_neg h9]
        exact show ("method_generic_decision".toList) ≠
          ("method_finish_fallback".toList) by decide
  · rw [if_neg h4]
    by_cases h10 : (FINISH_TOKENS.any fun tok =>
        containsSub tok (lowerList (normalize_text row.METHOD))) = true
    · -- the fallback guard contradicts the failed finish rule
      exfalso
      have hd : method_is_decision (normalize_text row.METHOD) = false := by
        simpa using h4
      have hfin : method_is_finish (normalize_text row.METHOD) = false := by
        rcases hb : method_is_finish (normalize_text row.METHOD) with _ | _
        · rfl
        · exact absurd (by rw [hb, hd]; rfl) h3
      have hf2 : (FINISH_TOKENS.any fun tok =>
          containsSub tok (lowerList (normalize_text (normalize_text row.METHOD)))) = false := by
        simpa [method_is_finish] using hfin
      rw [normalize_text_idem] at hf2
      rw [hf2] at h10
      exact absurd h10 (by decide)
    · rw [if_neg h10]
      exact show ("unknown_method".toList) ≠ ("method_finish_fallback".toList) by decide

/-- C2: in the unanimous/generic decision branch (outcome not a draw or
no-contest, method text a decision but neither split nor majority), the
parsed scorecard margins decide the classification exactly as claimed:
any margin at least 3 gives a dominant decision with basis
`details_any_margin_ge_3`; otherwise two margins at least 2 give a
dominant decision with basis `details_two_cards_ge_2`; otherwise a
non-empty margin list gives a normal decision with basis
`details_small_margins`; with no parsed margins the method keyword
decides: unanimous gives a dominant decision with basis
`method_unanimous_no_details`, anything else a normal decision with
basis `method_generic_decision`. -/
theorem claim_C2_unanimous_branch (row : ClassRow) (m_finish m_dom m_dec : ℚ)
    (h1 : lowerList (normalize_text row.winner_label) ≠ ("draw".toList))
    (h2 : lowerList (normalize_text row.winner_label) ≠ ("nc".toList))
    (h3 : method_is_decision (normalize_text row.METHOD) = true)
    (h4 : method_decision_type (normalize_text row.METHOD) ≠ ("split".toList))
    (h5 : method_decision_type (normalize_text row.METHOD) ≠ ("majority".toList)) :
    (((parse_scorecard_margins (normalize_text row.DETAILS)).any fun m => 3 ≤ m) = true →
        classify_row row m_finish m_dom m_dec =
          ⟨("decision_dominant".toList), m_dom, ("details_any_margin_ge_3".toList),
           marginsToStr (parse_scorecard_margins (normalize_text row.DETAILS))⟩) ∧
    (((parse_scorecard_margins (normalize_text row.DETAILS)).any fun m => 3 ≤ m) = false →
      2 ≤ ((parse_scorecard_margins (normalize_text row.DETAILS)).filter fun m => 2 ≤ m).length →
        classify_row row m_finish m_dom m_dec =
          ⟨("decision_dominant".toList), m_dom, ("details_two_cards_ge_2".toList),
           marginsToStr (parse_scorecard_margins (normalize_text row.DETAILS))⟩) ∧
    (parse_scorecard_margins (normalize_text row.DETAILS) ≠ [] →
      (((parse_scorecard_margins (normalize_text row.DETAILS)).any fun m => 3 ≤ m) = false) →
      ((parse_scorecard_margins (normalize_text row.DETAILS)).filter fun m => 2 ≤ m).length < 2 →
        classify_row row m_finish m_dom m_dec =
          ⟨("decision_normal".toList), m_dec, ("details_small_margins".toList),
           marginsToStr (parse_scorecard_margins (normalize_text row.DETAILS))⟩) ∧
    (parse_scorecard_margins (normalize_text row.DETAILS) = [] →
      method_decision_type (normalize_text row.METHOD) = ("unanimous".toList) →
        classify_row row m_finish m_dom m_dec =
          ⟨("decision_dominant".toList), m_dom, ("method_unanimous_no_details".toList), []⟩) ∧
    (parse_scorecard_margins (normalize_text row.DETAILS) = [] →
      method_decision_type (normalize_text row.METHOD) ≠ ("unanimous".toList) →
        classify_row row m_finish m_dom m_dec =
          ⟨("decision_normal".toList), m_dec, ("method_generic_decision".toList), []⟩) := by
  have hnf : ¬((method_is_finish (normalize_text row.METHOD) &&
      !method_is_decision (normalize_text row.METHOD)) = true) := by
    simp [h3]
  have hsm : ¬(method_decision_type (normalize_text row.METHOD) = ("split".toList) ∨
      method_decision_type (normalize_text row.METHOD) = ("majority".toList)) := by
    rintro (h | h)
    · exact h4 h
    · exact h5 h
  refine ⟨fun ha => ?_, fun ha hb => ?_, fun hne ha hb => ?_, fun hm hu => ?_, fun hm hu => ?_⟩
  · have hne : ¬((parse_scorecard_margins (normalize_text row.DETAILS)).isEmpty = true) := by
      rcases hp : parse_scorecard_margins (normalize_text row.DETAILS) with _ | ⟨x, xs⟩
      · rw [hp] at ha; simp at ha
      · simp
    simp only [classify_row]
    rw [if_neg h1, if_neg h2, if_neg hnf, if_pos h3, if_neg hsm, if_pos hne, if_pos ha]
  · have hne : ¬((parse_scorecard_margins (normalize_text row.DETAILS)).isEmpty = true) := by
      rcases hp : parse_scorecard_margins (normalize_text row.DETAILS) with _ | ⟨x, xs⟩
      · rw [hp] at hb; simp at hb
      · simp
    simp only [classify_row]
    rw [if_neg h1, if_neg h2, if_neg hnf, if_pos h3, if_neg hsm, if_pos hne,
        if_neg (by simp [ha]), if_pos hb]
  · have hne2 : ¬((parse_scorecard_margins (normalize_text row.DETAILS)).isEmpty = true) := by
      simpa [List.isEmpty_iff] using hne
    simp only [classify_row]
    rw [if_neg h1, if_neg h2, if_neg hnf, if_pos h3, if_neg hsm, if_pos hne2,
        if_neg (by simp [ha]), if_neg (by omega)]
  · simp only [classify_row]
    rw [if_neg h1, if_neg h2, if_neg hnf, if_pos h3, if_neg hsm,
        if_neg (by simp [hm]), if_pos hu]
  · simp only [classify_row]
    rw [if_neg h1, if_neg h2, if_neg hnf, if_pos h3, if_neg hsm,
        if_neg (by simp [hm]), if_neg hu]

/-- C2 witness: a unanimous decision with cards 47-48, 49-46, 47-48
parses margins 1,3,1 and is classified dominant with basis
`details_any_margin_ge_3`. -/
theorem claim_C2_unanimous_branch_witness :
    classify_row rowUD (6/5) (11/10) 1 =
      ⟨("decision_dominant".toList), 11/10, ("details_any_margin_ge_3".toList),
       ("1,3,1".toList)⟩ := by
  have h := (claim_C2_unanimous_branch rowUD (6/5) (11/10) 1
    (by decide) (by decide) (by decide) (by decide) (by decide)).1 (by decide)
  have h2 : marginsToStr (parse_scorecard_margins (normalize_text rowUD.DETAILS)) =
      ("1,3,1".toList) := by decide
  rw [h2] at h
  exact h

/-- C7: a decision bout whose method text contains "split" or "majority"
is always classified `decision_normal` with the normal multiplier,
whatever the scorecard details say. -/
theorem claim_C7_split_majority_normal (row : ClassRow) (m_finish m_dom m_dec : ℚ)
    (h1 : lowerList (normalize_text row.winner_label) ≠ ("draw".toList))
    (h2 : lowerList (normalize_text row.winner_label) ≠ ("nc".toList))
    (h3 : method_is_decision (normalize_text row.METHOD) = true)
    (h6 : containsSub ("split".toList) (lowerList (normalize_text row.METHOD)) = true ∨
          containsSub ("majority".toList) (lowerList (normalize_text row.METHOD)) = true) :
    (classify_row row m_finish m_dom m_dec).cls = ("decision_normal".toList) ∧
    (classify_row row m_finish m_dom m_dec).mult = m_dec := by
  have hnf : ¬((method_is_finish (normalize_text row.METHOD) &&
      !method_is_decision (normalize_text row.METHOD)) = true) := by
    simp [h3]
  have hsm : method_decision_type (normalize_text row.METHOD) = ("split".toList) ∨
      method_decision_type (normalize_text row.METHOD) = ("majority".toList) := by
    rcases h6 with h | h
    · left
      simp only [method_decision_type, normalize_text_idem]
      rw [if_pos h]
    · by_cases hs : containsSub ("split".toList) (lowerList (normalize_text row.METHOD)) = true
      · left
        simp only [method_decision_type, normalize_text_idem]
        rw [if_pos hs]
      · right
        simp only [method_decision_type, normalize_text_idem]
        rw [if_neg hs, if_pos h]
  have : classify_row row m_finish m_dom m_dec =
      ⟨("decision_normal".toList), m_dec,
       ("method_".toList) ++ method_decision_type (normalize_text row.METHOD), []⟩ := by
    simp only [classify_row]
    rw [if_neg h1, if_neg h2, if_neg hnf, if_pos h3, if_pos hsm]
  rw [this]
  exact ⟨rfl, rfl⟩

/-- C7 witness: a split decision with three 50-44 cards stays
`decision_normal` with the normal multiplier. -/
theorem claim_C7_split_majority_normal_witness :
    (classify_row rowSplit (6/5) (11/10) 1).cls = ("decision_normal".toList) ∧
    (classify_row rowSplit (6/5) (11/10) 1).mult = 1 :=
  claim_C7_split_majority_normal rowSplit (6/5) (11/10) 1
    (by decide) (by decide) (by decide) (Or.inl (by decide))

/-! ## Engine claims. -/

theorem logistic_prob_same (r s : ℝ) : logistic_prob r r s = 1 / 2 := by
  unfold logistic_prob
  rw [sub_self, zero_div, Real.rpow_zero]
  norm_num

theorem outcome_scores_sum {wl : Str} {sa sb : ℝ}
    (h : outcome_scores wl = some (sa, sb)) : sa + sb = 1 := by
  simp only [outcome_scores] at h
  split_ifs at h <;> simp only [Option.some.injEq, Prod.mk.injEq] at h <;>
    obtain ⟨h1, h2⟩ := h <;> rw [← h1, ← h2] <;> norm_num

theorem stepBout_history_zero_sum (cfg : EloConfig) (st : EloState) (b : Bout) :
    ∀ r ∈ (stepBout cfg st b).history, r ∈ st.history ∨
      r.post_rating_a + r.post_rating_b = r.pre_rating_a + r.pre_rating_b := by
  intro r hr
  cases hsc : outcome_scores b.winner_label with
  | none =>
    unfold stepBout at hr
    rw [hsc] at hr
    exact Or.inl hr
  | some sc =>
    unfold stepBout at hr
    rw [hsc] at hr
    simp only [List.mem_append, List.mem_singleton] at hr
    rcases hr with hr | rfl
    · exact Or.inl hr
    · right
      have hsum : sc.1 + sc.2 = 1 := outcome_scores_sum (by rw [hsc])
      simp only
      ring_nf
      linear_combination (cfg.K * b.method_multiplier) * hsum

/-- C1: under the default configuration, a single finish bout (multiplier
1.20) between two fresh competitors gives pre-ratings 1500 and 1500, win
probability 0.5, effective sensitivity 28.8, and post-ratings exactly
1514.4 and 1485.6. -/
theorem claim_C1_default_single_finish :
    (run_elo defaultCfg [boutC1]).history.map
      (fun r => (r.pre_rating_a, r.pre_rating_b, r.p_A_win, r.K_eff,
                 r.post_rating_a, r.post_rating_b)) =
    [((1500 : ℝ), (1500 : ℝ), (0.5 : ℝ), (28.8 : ℝ), (1514.4 : ℝ), (1485.6 : ℝ))] := by
  have hsc : outcome_scores boutC1.winner_label = some (1, 0) := by
    simp only [outcome_scores, boutC1]
    rw [if_pos (by decide)]
  simp only [run_elo, List.foldl, stepBout, hsc]
  simp +decide [initState, touchR, getR, setR, updFun, updCount, choose_fighter_id,
    key_from_name, boutC1, defaultCfg, logistic_prob_same]
  norm_num

/-- C4: every audit record of a run is zero-sum in exact arithmetic: the
two post-ratings sum to the two pre-ratings, because both sides share the
same effective sensitivity and the same win probability. -/
theorem claim_C4_zero_sum (cfg : EloConfig) (bouts : List Bout) :
    ∀ r ∈ (run_elo cfg bouts).history,
      r.post_rating_a + r.post_rating_b = r.pre_rating_a + r.pre_rating_b := by
  have key : ∀ (bs : List Bout) (st : EloState),
      (∀ r ∈ st.history,
        r.post_rating_a + r.post_rating_b = r.pre_rating_a + r.pre_rating_b) →
      ∀ r ∈ (bs.foldl (stepBout cfg) st).history,
        r.post_rating_a + r.post_rating_b = r.pre_rating_a + r.pre_rating_b := by
    intro bs
    induction bs with
    | nil => intro st h; simpa using h
    | cons b bs2 ih =>
      intro st h
      simp only [List.foldl_cons]
      apply ih
      intro r hr
      rcases stepBout_history_zero_sum cfg st b r hr with h1 | h2
      · exact h r h1
      · exact h2
  exact key bouts initState (by simp [initState])

/-- C4 witness: the single audit record of a draw between two fresh
competitors is zero-sum. -/
theorem claim_C4_zero_sum_witness :
    (⟨some 1, ("E1".toList), ("AA vs BB 1".toList), ("aa".toList), ("bb".toList),
      ("AA".toList), ("BB".toList), 1500, 1500, 1/2, ("draw".toList),
      ("decision_normal".toList), 1, 24, 1500, 1500⟩ : HistRow).post_rating_a +
      (⟨some 1, ("E1".toList), ("AA vs BB 1".toList), ("aa".toList), ("bb".toList),
        ("AA".toList), ("BB".toList), 1500, 1500, 1/2, ("draw".toList),
        ("decision_normal".toList), 1, 24, 1500, 1500⟩ : HistRow).post_rating_b =
    (⟨some 1, ("E1".toList), ("AA vs BB 1".toList), ("aa".toList), ("bb".toList),
      ("AA".toList), ("BB".toList), 1500, 1500, 1/2, ("draw".toList),
      ("decision_normal".toList), 1, 24, 1500, 1500⟩ : HistRow).pre_rating_a +
      (⟨some 1, ("E1".toList), ("AA vs BB 1".toList), ("aa".toList), ("bb".toList),
        ("AA".toList), ("BB".toList), 1500, 1500, 1/2, ("draw".toList),
        ("decision_normal".toList), 1, 24, 1500, 1500⟩ : HistRow).pre_rating_b := by
  apply claim_C4_zero_sum defaultCfg [boutD1]
  have hsc : outcome_scores boutD1.winner_label = some (0.5, 0.5) := by
    simp only [outcome_scores, boutD1]
    rw [if_neg (by decide), if_neg (by decide), if_pos (by decide)]
  simp only [run_elo, List.foldl, stepBout, hsc]
  simp +decide [initState, touchR, getR, setR, updFun, updCount, choose_fighter_id,
    key_from_name, boutD1, defaultCfg, logistic_prob_same]
  norm_num [logistic_prob_same]

/-- C5: a bout whose outcome label is no-contest or unknown is skipped
entirely: the engine state (ratings, names, all counters, first/last
dates and the history ledger) is unchanged. -/
theorem claim_C5_unresolved_skipped (cfg : EloConfig) (st : EloState) (b : Bout)
    (h : pyStripLower b.winner_label = ("nc".toList) ∨
         pyStripLower b.winner_label = ("unknown".toList)) :
    stepBout cfg st b = st := by
  have hsc : outcome_scores b.winner_label = none := by
    simp only [outcome_scores]
    rcases h with h | h <;>
      rw [h, if_neg (by decide), if_neg (by decide), if_neg (by decide)]
  unfold stepBout
  rw [hsc]

/-- C5 witness: a concrete no-contest bout leaves the initial state
untouched. -/
theorem claim_C5_unresolved_skipped_witness :
    stepBout defaultCfg initState boutNC = initState :=
  claim_C5_unresolved_skipped defaultCfg initState boutNC (Or.inl (by decide))

/-- C10: after processing any bout sequence (hence any prefix of a
sequence), every competitor's fight count equals the sum of their win,
loss and draw counts: each processed bout adds one fight and exactly one
of win/loss/draw to each participant. -/
theorem claim_C10_fight_count_invariant (cfg : EloConfig) (bouts : List Bout)
    (fid : Str) :
    (run_elo cfg bouts).fights_ct fid =
      (run_elo cfg bouts).wins_ct fid + (run_elo cfg bouts).losses_ct fid +
        (run_elo cfg bouts).draws_ct fid := by
  have key : ∀ (bs : List Bout) (st : EloState),
      (∀ f, st.fights_ct f = st.wins_ct f + st.losses_ct f + st.draws_ct f) →
      ∀ f, (bs.foldl (stepBout cfg) st).fights_ct f =
        (bs.foldl (stepBout cfg) st).wins_ct f +
          (bs.foldl (stepBout cfg) st).losses_ct f +
          (bs.foldl (stepBout cfg) st).draws_ct f := by
    intro bs
    induction bs with
    | nil => intro st h; simpa using h
    | cons b bs2 ih =>
      intro st h
      simp only [List.foldl_cons]
      apply ih
      intro f
      cases hsc : outcome_scores b.winner_label with
      | none =>
        unfold stepBout
        rw [hsc]
        exact h f
      | some sc =>
        unfold stepBout
        rw [hsc]
        simp only
        split_ifs with h1 h2 <;>
          · simp only [updCount]
            split_ifs <;> · have := h f; omega
  exact key bouts initState (fun f => by simp [initState]) fid

/-- C8 counterexample: two distinct draws between the same two
competitors (overlapping on both sides, with different events and dates)
commute: processing them in either order yields the same final rating
table, refuting the universally quantified order-sensitivity claim. -/
theorem claim_C8_counterexample :
    (choose_fighter_id boutD1 true).1 = (choose_fighter_id boutD2 true).1 ∧
    (choose_fighter_id boutD1 false).1 = (choose_fighter_id boutD2 false).1 ∧
    boutD1.EVENT ≠ boutD2.EVENT ∧
    (run_elo defaultCfg [boutD1, boutD2]).ratings =
      (run_elo defaultCfg [boutD2, boutD1]).ratings := by
  refine ⟨by decide, by decide, by decide, ?_⟩
  have hsc1 : outcome_scores boutD1.winner_label = some (0.5, 0.5) := by
    simp only [outcome_scores, boutD1]
    rw [if_neg (by decide), if_neg (by decide), if_pos (by decide)]
  have hsc2 : outcome_scores boutD2.winner_label = some (0.5, 0.5) := by
    simp only [outcome_scores, boutD2]
    rw [if_neg (by decide), if_neg (by decide), if_pos (by decide)]
  simp only [run_elo, List.foldl, stepBout, hsc1, hsc2]
  simp +decide [initState, touchR, getR, setR, updFun, updCount, choose_fighter_id,
    key_from_name, boutD1, boutD2, defaultCfg, logistic_prob_same]
  norm_num [logistic_prob_same]

theorem logistic_prob_lt_half : logistic_prob 1488 1512 350 < 1 / 2 := by
  have h1 : (1 : ℝ) < (10 : ℝ) ^ (((1512 : ℝ) - 1488) / 350) := by
    rw [Real.one_lt_rpow_iff_of_pos (by norm_num)]
    norm_num
  unfold logistic_prob
  rw [div_lt_div_iff (by linarith) (by norm_num)]
  linarith

/-- C8 amended: the engine is not order-invariant: there is a pair of
bouts with a shared competitor (here AA, who beats BB and then loses the
return bout) such that processing the pair in the two orders gives AA
different final ratings. -/
theorem claim_C8_amended_not_order_invariant :
    (choose_fighter_id boutW1 true).1 = (choose_fighter_id boutW2 false).1 ∧
    getR defaultCfg.base_rating (run_elo defaultCfg [boutW1, boutW2]).ratings
        ((choose_fighter_id boutW1 true).1) ≠
      getR defaultCfg.base_rating (run_elo defaultCfg [boutW2, boutW1]).ratings
        ((choose_fighter_id boutW1 true).1) := by
  refine ⟨by decide, ?_⟩
  have hq := logistic_prob_lt_half
  have hsc1 : outcome_scores boutW1.winner_label = some (1, 0) := by
    simp only [outcome_scores, boutW1]
    rw [if_pos (by decide)]
  have hsc2 : outcome_scores boutW2.winner_label = some (1, 0) := by
    simp only [outcome_scores, boutW2]
    rw [if_pos (by decide)]
  simp only [run_elo, List.foldl, stepBout, hsc1, hsc2]
  simp +decide [initState, touchR, getR, setR, updFun, updCount, choose_fighter_id,
    key_from_name, boutW1, boutW2, defaultCfg, logistic_prob_same]
  norm_num [logistic_prob_same]
  intro heq
  linarith [hq]

theorem setR_keys (l : List (Str × ℝ)) (k : Str) (v : ℝ) :
    (setR l k v).map Prod.fst = l.map Prod.fst := by
  unfold setR
  induction l with
  | nil => rfl
  | cons p t ih =>
    simp only [List.map_cons]
    rw [ih]
    congr 1
    split_ifs with hp
    · exact hp.symm
    · rfl

theorem touchR_keys_nodup (base : ℝ) (l : List (Str × ℝ)) (k : Str)
    (h : (l.map Prod.fst).Nodup) : ((touchR base l k).map Prod.fst).Nodup := by
  unfold touchR
  split_ifs with hk
  · exact h
  · simp only [List.map_append, List.map_cons, List.map_nil]
    rw [List.nodup_append]
    refine ⟨h, List.nodup_singleton k, ?_⟩
    intro a ha hb
    simp only [List.mem_singleton] at hb
    subst hb
    simp only [List.any_eq_true, decide_eq_true_eq] at hk
    obtain ⟨p, hp, hpk⟩ := List.mem_map.mp ha
    exact hk ⟨p, hp, hpk⟩

theorem run_elo_keys_nodup (cfg : EloConfig) (bouts : List Bout) :
    ((run_elo cfg bouts).ratings.map Prod.fst).Nodup := by
  have key : ∀ (bs : List Bout) (st : EloState),
      (st.ratings.map Prod.fst).Nodup →
      ((bs.foldl (stepBout cfg) st).ratings.map Prod.fst).Nodup := by
    intro bs
    induction bs with
    | nil => intro st h; simpa using h
    | cons b bs2 ih =>
      intro st h
      simp only [List.foldl_cons]
      apply ih
      cases hsc : outcome_scores b.winner_label with
      | none =>
        unfold stepBout
        rw [hsc]
        exact h
      | some sc =>
        unfold stepBout
        rw [hsc]
        simp only
        rw [setR_keys, setR_keys]
        exact touchR_keys_nodup _ _ _ (touchR_keys_nodup _ _ _ h)
  exact key bouts initState (by simp [initState])

/-- C6 amended: the end-of-run snapshot has exactly one row per
competitor appearing in the rating table (its fighter-id column is a
duplicate-free permutation of the rating table's keys) and is ordered by
final rating descending.  The source sorts on the rating column only, so
no competitor-key tie-break is applied (see the counterexample). -/
theorem claim_C6_amended_snapshot (cfg : EloConfig) (bouts : List Bout) :
    ((snapshot (run_elo cfg bouts)).map SnapRow.fighter_id).Perm
        ((run_elo cfg bouts).ratings.map Prod.fst) ∧
    ((snapshot (run_elo cfg bouts)).map SnapRow.fighter_id).Nodup ∧
    List.Sorted ratingDescRel (snapshot (run_elo cfg bouts)) := by
  have hperm : (snapshot (run_elo cfg bouts)).Perm (snapRows (run_elo cfg bouts)) :=
    List.perm_insertionSort _ _
  have hmap : (snapRows (run_elo cfg bouts)).map SnapRow.fighter_id =
      (run_elo cfg bouts).ratings.map Prod.fst := by
    unfold snapRows
    rw [List.map_map]
    rfl
  have h1 : ((snapshot (run_elo cfg bouts)).map SnapRow.fighter_id).Perm
      ((run_elo cfg bouts).ratings.map Prod.fst) := by
    have h2 := hperm.map SnapRow.fighter_id
    rwa [hmap] at h2
  exact ⟨h1, h1.nodup_iff.mpr (run_elo_keys_nodup cfg bouts),
    List.sorted_insertionSort _ _⟩

/-- C6 counterexample: after ZZ beats AA and BB beats CC (all from the
base rating), the snapshot is ZZ, BB (both 1512) then AA, CC (both
1488): the 1512 tie appears in descending key order and the 1488 tie in
ascending key order, so equal-rating rows are not ordered by competitor
key in either direction. -/
theorem claim_C6_counterexample :
    (snapshot (run_elo defaultCfg [boutS1, boutS2])).map
        (fun r => (r.fighter_id, r.rating)) =
      [(("zz".toList), (1512 : ℝ)), (("bb".toList), (1512 : ℝ)),
       (("aa".toList), (1488 : ℝ)), (("cc".toList), (1488 : ℝ))] ∧
    ¬ List.Pairwise (fun x y => x.rating = y.rating → x.fighter_id ≤ y.fighter_id)
        (snapshot (run_elo defaultCfg [boutS1, boutS2])) ∧
    ¬ List.Pairwise (fun x y => x.rating = y.rating → y.fighter_id ≤ x.fighter_id)
        (snapshot (run_elo defaultCfg [boutS1, boutS2])) := by
  have hsc1 : outcome_scores boutS1.winner_label = some (1, 0) := by
    simp only [outcome_scores, boutS1]
    rw [if_pos (by decide)]
  have hsc2 : outcome_scores boutS2.winner_label = some (1, 0) := by
    simp only [outcome_scores, boutS2]
    rw [if_pos (by decide)]
  have hsnap : snapshot (run_elo defaultCfg [boutS1, boutS2]) =
      [⟨("zz".toList), ("ZZ".toList), 1512, 1, 1, 0, 0, some (some 1), some (some 1)⟩,
       ⟨("bb".toList), ("BB".toList), 1512, 1, 1, 0, 0, some (some 2), some (some 2)⟩,
       ⟨("aa".toList), ("AA".toList), 1488, 1, 0, 1, 0, some (some 1), some (some 1)⟩,
       ⟨("cc".toList), ("CC".toList), 1488, 1, 0, 1, 0, some (some 2), some (some 2)⟩] := by
    simp only [run_elo, List.foldl, stepBout, hsc1, hsc2]
    simp +decide [initState, touchR, getR, setR, updFun, updCount, choose_fighter_id,
      key_from_name, boutS1, boutS2, defaultCfg, logistic_prob_same, snapshot, snapRows,
      List.insertionSort, List.orderedInsert, firstVal, lastVal]
    norm_num [logistic_prob_same, ratingDescRel, List.insertionSort, List.orderedInsert]
    decide
  refine ⟨by rw [hsnap]; norm_num, ?_, ?_⟩
  · rw [hsnap]
    intro hp
    have h01 := (List.pairwise_cons.mp hp).1 _ (List.mem_cons_self _ _)
    have h02 := h01 rfl
    revert h02
    decide
  · rw [hsnap]
    intro hp
    have hrest := (List.pairwise_cons.mp hp).2
    have hrest2 := (List.pairwise_cons.mp hrest).2
    have h23 := (List.pairwise_cons.mp hrest2).1 _ (List.mem_cons_self _ _)
    have h24 := h23 rfl
    revert h24
    decide

/-! ## Peak-extractor claims. -/

theorem dropDupFid_subset {seen : List Str} {l : List LongRow} :
    ∀ x ∈ dropDupFid seen l, x ∈ l := by
  induction l generalizing seen with
  | nil => intro x hx; simp [dropDupFid] at hx
  | cons e t ih =>
    intro x hx
    rw [dropDupFid] at hx
    split_ifs at hx with hm
    · exact List.mem_cons_of_mem e (ih x hx)
    · rcases List.mem_cons.mp hx with rfl | hx2
      · exact List.mem_cons_self _ _
      · exact List.mem_cons_of_mem e (ih x hx2)

theorem dropDupFid_not_seen {seen : List Str} {l : List LongRow} :
    ∀ x ∈ dropDupFid seen l, x.fighter_id ∉ seen := by
  induction l generalizing seen with
  | nil => intro x hx; simp [dropDupFid] at hx
  | cons e t ih =>
    intro x hx
    rw [dropDupFid] at hx
    split_ifs at hx with hm
    · exact ih x hx
    · rcases List.mem_cons.mp hx with rfl | hx2
      · exact hm
      · have h2 := ih x hx2
        intro hc
        exact h2 (List.mem_cons_of_mem _ hc)

theorem dropDupFid_exists (seen : List Str) {l : List LongRow} {fid : Str}
    (hseen : fid ∉ seen) :
    ∀ y ∈ l, y.fighter_id = fid → ∃ x ∈ dropDupFid seen l, x.fighter_id = fid := by
  induction l generalizing seen with
  | nil => intro y hy; simp at hy
  | cons e t ih =>
    intro y hy hfid
    rw [dropDupFid]
    split_ifs with hm
    · rcases List.mem_cons.mp hy with rfl | hy2
      · exact absurd (hfid ▸ hm) hseen
      · exact ih seen hseen y hy2 hfid
    · by_cases hef : e.fighter_id = fid
      · exact ⟨e, List.mem_cons_self _ _, hef⟩
      · rcases List.mem_cons.mp hy with rfl | hy2
        · exact absurd hfid hef
        · have hseen2 : fid ∉ e.fighter_id :: seen := by
            intro hc
            rcases List.mem_cons.mp hc with hc1 | hc2
            · exact hef hc1.symm
            · exact hseen hc2
          obtain ⟨x, hx1, hx2⟩ := ih _ hseen2 y hy2 hfid
          exact ⟨x, List.mem_cons_of_mem _ hx1, hx2⟩

theorem dropDupFid_min : ∀ {l : List LongRow}, List.Pairwise peakRel l →
    ∀ {seen : List Str}, ∀ x ∈ dropDupFid seen l, ∀ y ∈ l,
      y.fighter_id = x.fighter_id → peakRel x y := by
  intro l
  induction l with
  | nil => intro hp seen x hx; simp [dropDupFid] at hx
  | cons e t ih =>
    intro hp seen x hx y hy hfid
    have hp1 := (List.pairwise_cons.mp hp).1
    have hp2 := (List.pairwise_cons.mp hp).2
    rw [dropDupFid] at hx
    split_ifs at hx with hm
    · rcases List.mem_cons.mp hy with rfl | hy2
      · have hns := dropDupFid_not_seen x hx
        exact absurd (hfid ▸ hm) hns
      · exact ih hp2 x hx y hy2 hfid
    · rcases List.mem_cons.mp hx with rfl | hx2
      · rcases List.mem_cons.mp hy with rfl | hy2
        · exact le_refl (peakKey y)
        · exact hp1 y hy2
      · rcases List.mem_cons.mp hy with rfl | hy2
        · have hns := dropDupFid_not_seen x hx2
          exact absurd (List.mem_cons.mpr (Or.inl hfid.symm)) (fun hc => hns (hfid ▸ hc))
        · exact ih hp2 x hx2 y hy2 hfid

theorem dropDupFid_fid_nodup {l : List LongRow} :
    ∀ (seen : List Str),
      List.Pairwise (fun a b => a.fighter_id ≠ b.fighter_id) (dropDupFid seen l) := by
  induction l with
  | nil => intro seen; simp [dropDupFid]
  | cons e t ih =>
    intro seen
    rw [dropDupFid]
    split_ifs with hm
    · exact ih seen
    · rw [List.pairwise_cons]
      refine ⟨?_, ih _⟩
      intro z hz hc
      exact dropDupFid_not_seen z hz (List.mem_cons.mpr (Or.inl hc.symm))

theorem peakRel_same_fid {d y : LongRow} (hfid : y.fighter_id = d.fighter_id)
    (h : peakRel d y) :
    y.post_rating ≤ d.post_rating ∧
      (y.post_rating = d.post_rating → dateKey d.DATE ≤ dateKey y.DATE) := by
  unfold peakRel peakKey at h
  rw [Prod.Lex.le_iff] at h
  rcases h with h | ⟨-, h2⟩
  · rw [hfid] at h
    exact absurd h (lt_irrefl _)
  · rw [Prod.Lex.le_iff] at h2
    rcases h2 with h2 | ⟨h2eq, h3⟩
    · have hlt : y.post_rating < d.post_rating := by
        simpa using h2
      exact ⟨le_of_lt hlt, fun he => absurd he (ne_of_lt hlt)⟩
    · have hpe : d.post_rating = y.post_rating := by
        simpa using h2eq
      exact ⟨le_of_eq hpe.symm, fun _ => h3⟩

theorem compute_peak_spec (long : List LongRow) :
    (∀ x ∈ long, ∃ r ∈ compute_peak long, r.fighter_id = x.fighter_id) ∧
    (∀ r ∈ compute_peak long,
      (∃ y ∈ long, y.fighter_id = r.fighter_id ∧ y.post_rating = r.peak_rating ∧
         y.DATE = r.peak_date ∧ y.EVENT = r.peak_event ∧ y.BOUT = r.peak_bout) ∧
      (∀ y ∈ long, y.fighter_id = r.fighter_id → y.post_rating ≤ r.peak_rating) ∧
      (∀ y ∈ long, y.fighter_id = r.fighter_id → y.post_rating = r.peak_rating →
         dateKey r.peak_date ≤ dateKey y.DATE)) ∧
    List.Pairwise (fun a b => a.fighter_id ≠ b.fighter_id) (compute_peak long) ∧
    List.Sorted peakDescRel (compute_peak long) := by
  have hSp : (List.insertionSort peakRel long).Perm long := List.perm_insertionSort _ _
  have hSsorted : List.Pairwise peakRel (List.insertionSort peakRel long) :=
    List.sorted_insertionSort _ _
  have hFp : (compute_peak long).Perm
      ((dropDupFid [] (List.insertionSort peakRel long)).map toPeakRow) :=
    List.perm_insertionSort _ _
  refine ⟨?_, ?_, ?_, List.sorted_insertionSort _ _⟩
  · intro x hx
    have hxS : x ∈ List.insertionSort peakRel long := hSp.mem_iff.mpr hx
    obtain ⟨d, hd, hdf⟩ :=
      dropDupFid_exists [] (by simp) x hxS rfl
    exact ⟨toPeakRow d, hFp.mem_iff.mpr (List.mem_map_of_mem toPeakRow hd), hdf⟩
  · intro r hr
    have hrP := hFp.mem_iff.mp hr
    obtain ⟨d, hd, rfl⟩ := List.mem_map.mp hrP
    have hdS := dropDupFid_subset d hd
    have hdlong : d ∈ long := hSp.mem_iff.mp hdS
    refine ⟨⟨d, hdlong, rfl, rfl, rfl, rfl, rfl⟩, ?_, ?_⟩
    · intro y hy hyf
      have hyS : y ∈ List.insertionSort peakRel long := hSp.mem_iff.mpr hy
      have hrel := dropDupFid_min hSsorted d hd y hyS hyf
      exact (peakRel_same_fid hyf hrel).1
    · intro y hy hyf hypost
      have hyS : y ∈ List.insertionSort peakRel long := hSp.mem_iff.mpr hy
      have hrel := dropDupFid_min hSsorted d hd y hyS hyf
      exact (peakRel_same_fid hyf hrel).2 hypost
  · have hD := dropDupFid_fid_nodup (l := List.insertionSort peakRel long) []
    have hP : List.Pairwise (fun a b => a.fighter_id ≠ b.fighter_id)
        ((dropDupFid [] (List.insertionSort peakRel long)).map toPeakRow) := by
      rw [List.pairwise_map]
      exact hD
    exact (hFp.pairwise_iff fun h he => h he.symm).mpr hP

/-- C3: for every competitor appearing in the ledger, `compute_peak`
returns exactly one row; that row originates from one of the
competitor's own ledger entries, its peak rating is the maximum
post-update rating over all their entries, its date is the earliest date
among the entries attaining that maximum, and the result set is ordered
by peak rating descending. -/
theorem claim_C3_peak_extractor (hist : List HistCsv) :
    (∀ x ∈ build_long_from_history hist,
       ∃ r ∈ compute_peak (build_long_from_history hist),
         r.fighter_id = x.fighter_id) ∧
    (∀ r ∈ compute_peak (build_long_from_history hist),
      (∃ y ∈ build_long_from_history hist, y.fighter_id = r.fighter_id ∧
         y.post_rating = r.peak_rating ∧ y.DATE = r.peak_date ∧
         y.EVENT = r.peak_event ∧ y.BOUT = r.peak_bout) ∧
      (∀ y ∈ build_long_from_history hist, y.fighter_id = r.fighter_id →
         y.post_rating ≤ r.peak_rating) ∧
      (∀ y ∈ build_long_from_history hist, y.fighter_id = r.fighter_id →
         y.post_rating = r.peak_rating → dateKey r.peak_date ≤ dateKey y.DATE)) ∧
    List.Pairwise (fun a b => a.fighter_id ≠ b.fighter_id)
      (compute_peak (build_long_from_history hist)) ∧
    List.Sorted peakDescRel (compute_peak (build_long_from_history hist)) :=
  compute_peak_spec (build_long_from_history hist)

/-- C3 witness: on a two-bout ledger where fighter x attains the maximum
1510 on dates 5 and then 3, the returned peak row carries date 3; the
a-side entry of the first bout is bounded by the peak and dated no
earlier than it. -/
theorem claim_C3_peak_extractor_witness :
    (longRowA histW1).post_rating ≤
      (⟨("x".toList), ("X Name".toList), 1510, some 3, ("E2".toList),
        ("B2".toList)⟩ : PeakRow).peak_rating ∧
    dateKey (⟨("x".toList), ("X Name".toList), 1510, some 3, ("E2".toList),
        ("B2".toList)⟩ : PeakRow).peak_date ≤ dateKey (longRowA histW1).DATE :=
  ⟨((claim_C3_peak_extractor [histW1, histW2]).2.1 _ (by decide)).2.1
      (longRowA histW1) (by decide) (by decide),
   ((claim_C3_peak_extractor [histW1, histW2]).2.1 _ (by decide)).2.2
      (longRowA histW1) (by decide) (by decide) (by decide)⟩

end UFCElo
